import Mathlib

/-!
Verification of the HH API fetch-and-aggregate client
(`src/hh_api_client.py`, class `HHAPIClient`).

The client is embedded shallowly:

* JSON values (the loosely-typed vacancy records) are `JVal`.  A JSON
  object is encoded as a cons-chain `objCons k v rest` ending in `objNil`;
  `JVal.ofList` builds one from a key/value list.  A key that is present
  with value `null` is distinct from an absent key, exactly as in Python,
  which matters for `dict.get(k)` versus `dict.get(k, default)`.
* Python runtime values passed as employer ids are `PyVal`.  Following
  Python, `bool` is a subclass of `int`, so `isinstance(x, int)` holds for
  booleans; `PyVal.isInstInt` and `PyVal.intVal` reflect this.
* Python exceptions are `PyError`, carrying the exception class and
  message, so that the distinct `ValueError` messages raised by the
  client remain distinguishable.
* The HTTP transport is a black box, per the specification: the employer
  lookup endpoint is a function from the employer id to a status code,
  and the list endpoint is a function from (employer id, page index) to a
  `ListResp`, which either fails (any `requests.RequestException`,
  including the one raised by `raise_for_status`) or returns a body with
  an `items` array and an integer `pages` count, the shape the
  specification guarantees for the list endpoint.
* The mutable client state is `St`: the accumulated `data` list, the
  `page` cursor from `self.params`, and a ghost trace `requests` of the
  list requests issued (employer id, page index), used to reason about
  which fetches were actually performed.
* A Python exception leaves the object state intact, so stateful
  operations return `St × Option PyError`: the state reached when the
  operation returned or raised, and the exception if one propagated.
* The `while True` pagination loop is modelled with explicit fuel
  (`load_pages`); theorems about terminating runs supply enough fuel.
-/

namespace HH

/-- A JSON value as decoded by `response.json()` (Python `None`/`dict`/
`str`/`int` after decoding).  Objects are cons-chains of string keys. -/
inductive JVal where
  | null
  | str (s : String)
  | num (n : Int)
  | objNil
  | objCons (k : String) (v : JVal) (rest : JVal)
deriving Repr, DecidableEq

instance : Inhabited JVal := ⟨JVal.null⟩

/-- Build a JSON object from a key/value list. -/
def JVal.ofList : List (String × JVal) → JVal
  | [] => .objNil
  | (k, v) :: rest => .objCons k v (JVal.ofList rest)

/-- First binding of key `k` in an object chain (`none` if absent or if
the value is not an object). -/
def JVal.lookup : JVal → String → Option JVal
  | .objCons k' v rest, k => if k' = k then some v else rest.lookup k
  | _, _ => none

/-- Whether the value is a Python `dict` (has a `.get` method). -/
def JVal.isDict : JVal → Bool
  | .objNil => true
  | .objCons _ _ _ => true
  | _ => false

/-- A Python runtime value used as an employer id argument. -/
inductive PyVal where
  | vint (n : Int)
  | vbool (b : Bool)
  | vstr (s : String)
  | vnone
deriving Repr, DecidableEq

/-- A Python exception: class and message. -/
inductive PyError where
  | valueError (msg : String)
  | typeError (msg : String)
  | attributeError (msg : String)
deriving Repr, DecidableEq

/-- Python `isinstance(x, int)`.  `bool` is a subclass of `int`. -/
def PyVal.isInstInt : PyVal → Bool
  | .vint _ => true
  | .vbool _ => true
  | _ => false

/-- The integer value of a Python int (booleans count as 1/0); only
meaningful when `isInstInt` holds. -/
def PyVal.intVal : PyVal → Int
  | .vint n => n
  | .vbool b => if b then 1 else 0
  | _ => 0

/-- Python `x.get(k)` on a JSON value: returns the binding, `None` when
the key is absent, and raises `AttributeError` when `x` is not a dict
(in particular when `x` is `None`). -/
def JVal.get (v : JVal) (k : String) : Except PyError JVal :=
  if v.isDict then .ok ((v.lookup k).getD JVal.null)
  else .error (.attributeError "object has no attribute get")

/-- Python `x.get(k, d)`: like `JVal.get` but the default is returned
only when the key is absent (a key bound to `None` still yields `None`). -/
def JVal.getD (v : JVal) (k : String) (d : JVal) : Except PyError JVal :=
  if v.isDict then .ok ((v.lookup k).getD d)
  else .error (.attributeError "object has no attribute get")

/-- Python `int(x)` applied to a decoded JSON value: ints pass through,
int-shaped strings parse, `None` raises `TypeError`, anything else
raises. -/
def pyint : JVal → Except PyError Int
  | .num n => .ok n
  | .str s =>
    match s.toInt? with
    | some n => .ok n
    | none => .error (.valueError "invalid literal for int with base 10")
  | .null => .error (.typeError "int argument must not be NoneType")
  | .objNil => .error (.typeError "int argument must not be dict")
  | .objCons _ _ _ => .error (.typeError "int argument must not be dict")

/-- Returns `true` when the `Except` is an error. -/
def isErr {ε α : Type} : Except ε α → Bool
  | .error _ => true
  | .ok _ => false

instance {ε α : Type} [DecidableEq ε] [DecidableEq α] : DecidableEq (Except ε α) :=
  fun a b =>
    match a, b with
    | .error e, .error e' => decidable_of_iff (e = e') (by simp)
    | .ok x, .ok y => decidable_of_iff (x = y) (by simp)
    | .error _, .ok _ => isFalse (by simp)
    | .ok _, .error _ => isFalse (by simp)

/-- Method `HHAPIClient.valid_id`: returns the id unchanged when
`isinstance(employer_id, int) and employer_id > 0`, otherwise raises
`ValueError('Invalid employer ID')`. -/
def valid_id (employer_id : PyVal) : Except PyError PyVal :=
  if employer_id.isInstInt && decide (0 < employer_id.intVal) then .ok employer_id
  else .error (.valueError "Invalid employer ID")

/-- Method `HHAPIClient.check_existence`, as a function of the status code the
employer lookup endpoint returned for this id. -/
def check_existence (status : Nat) : Except PyError Bool :=
  if status = 200 then .ok true
  else if status = 404 then .error (.valueError "Employer ID does not exist")
  else .error (.valueError "Failed to check employer ID")

/-- Outcome of one list request: a transport/HTTP failure (any
`requests.RequestException`, including `raise_for_status`), or a decoded
body with its `items` array and integer `pages` count (the shape the
list endpoint guarantees). -/
inductive ListResp where
  | fail
  | ok (items : List JVal) (pages : Int)
deriving Repr, DecidableEq

/-- Client state: the accumulated `self.data`, the `page` entry of
`self.params`, and a ghost trace of list requests issued as
(employer id, page index) pairs. -/
structure St where
  data : List JVal
  page : Nat
  requests : List (PyVal × Nat)
deriving Repr, DecidableEq

/-- The `while True` pagination loop of `load_vacancy_by_emp_id`,
with explicit fuel.  Each iteration records the request, then either the
request fails (`except requests.RequestException`: log and `break` — no
error propagates), or the `items` are appended to `self.data` and the
loop stops when `page >= pages - 1`, else increments the page. -/
def load_pages (envl : PyVal → Nat → ListResp) (emp : PyVal) :
    Nat → St → St × Option PyError
  | 0, st => (st, none)
  | fuel + 1, st =>
    let st1 : St := { st with requests := st.requests ++ [(emp, st.page)] }
    match envl emp st.page with
    | .fail => (st1, none)
    | .ok items pages =>
      let st2 : St := { st1 with data := st1.data ++ items }
      if (st2.page : Int) ≥ pages - 1 then (st2, none)
      else load_pages envl emp fuel { st2 with page := st2.page + 1 }

/-- Method `HHAPIClient.load_vacancy_by_emp_id`: validate the id, check
existence (both raise out of the method on failure, leaving the state
untouched), then reset the page cursor to 0 and run the pagination
loop. -/
def load_vacancy_by_emp_id (envs : PyVal → Nat) (envl : PyVal → Nat → ListResp)
    (fuel : Nat) (employer_id : PyVal) (st : St) : St × Option PyError :=
  match valid_id employer_id with
  | .error e => (st, some e)
  | .ok v =>
    match check_existence (envs v) with
    | .error e => (st, some e)
    | .ok _ => load_pages envl v fuel { st with page := 0 }

/-- Method `HHAPIClient.load_vacancies_by_emp_ids`: a bare `for` loop over the
ids — there is no `try/except` around the per-employer call, so an
exception raised by `load_vacancy_by_emp_id` propagates and the
remaining ids are not processed. -/
def load_vacancies_by_emp_ids (envs : PyVal → Nat) (envl : PyVal → Nat → ListResp)
    (fuel : Nat) : List PyVal → St → St × Option PyError
  | [], st => (st, none)
  | e :: rest, st =>
    match load_vacancy_by_emp_id envs envl fuel e st with
    | (st', none) => load_vacancies_by_emp_ids envs envl fuel rest st'
    | (st', some err) => (st', some err)

/-- Method `HHAPIClient.get_info`: returns the accumulated list as is. -/
def get_info (st : St) : List JVal × St := (st.data, st)

/-- Lookup in an insertion-ordered association list (a Python dict whose
keys are JSON values). -/
def alookup (k : JVal) : List (JVal × JVal) → Option JVal
  | [] => none
  | (k', v) :: rest => if k' = k then some v else alookup k rest

/-- Loop body of `HHAPIClient.get_areas`, threading the `areas` dict
(as an insertion-ordered association list).  For each record:
`area = vacancy.get('area')`, `area_id = area.get('id')`, and if the id
is not yet a key, insert `{'name': area.get('name'),
'url': area.get('url')}`. -/
def get_areas_go (areas : List (JVal × JVal)) :
    List JVal → Except PyError (List (JVal × JVal))
  | [] => .ok areas
  | vacancy :: rest => do
    let area ← vacancy.get "area"
    let area_id ← area.get "id"
    if (alookup area_id areas).isSome then
      get_areas_go areas rest
    else do
      let nm ← area.get "name"
      let ur ← area.get "url"
      get_areas_go (areas ++ [(area_id, JVal.ofList [("name", nm), ("url", ur)])]) rest

/-- Method `HHAPIClient.get_areas` on the accumulated list. -/
def get_areas (data : List JVal) : Except PyError (List (JVal × JVal)) :=
  get_areas_go [] data

/-- Loop body of `HHAPIClient.get_employers`: for each record,
`employer = vacancy.get('employer')`, `employer_id = employer.get('id')`,
and if the id is not yet a key, insert `{'name': employer.get('name'),
'url': employer.get('url'), 'open_vacancies': 0}`. -/
def get_employers_go (employers : List (JVal × JVal)) :
    List JVal → Except PyError (List (JVal × JVal))
  | [] => .ok employers
  | vacancy :: rest => do
    let employer ← vacancy.get "employer"
    let employer_id ← employer.get "id"
    if (alookup employer_id employers).isSome then
      get_employers_go employers rest
    else do
      let nm ← employer.get "name"
      let ur ← employer.get "url"
      get_employers_go
        (employers ++ [(employer_id,
          JVal.ofList [("name", nm), ("url", ur), ("open_vacancies", JVal.num 0)])]) rest

/-- Method `HHAPIClient.get_employers` on the accumulated list. -/
def get_employers (data : List JVal) : Except PyError (List (JVal × JVal)) :=
  get_employers_go [] data

/-- One flattened vacancy produced by `HHAPIClient.get_vacancies`. -/
structure VacRow where
  id : Int
  name : JVal
  area_id : Int
  salary : JVal
  employer_id : Int
  url : JVal
deriving Repr, DecidableEq

instance : Inhabited VacRow := ⟨⟨0, JVal.null, 0, JVal.null, 0, JVal.null⟩⟩

/-- One iteration of the `HHAPIClient.get_vacancies` loop, in the
evaluation order of the source: `salary = vacancy.get('salary', {})`,
`salary_from = salary.get('from')`, then the debug f-strings evaluate
`vacancy.get('employer').get('id')` and `vacancy.get('url')`, then the
dict literal evaluates `int(vacancy.get('id'))`, `vacancy.get('name')`,
`int(vacancy.get('area', {'id': None}).get('id'))`, the precomputed
salary, `int(vacancy.get('employer').get('id'))`, `vacancy.get('url')`. -/
def get_vacancy_row (vacancy : JVal) : Except PyError VacRow := do
  let salary ← vacancy.getD "salary" (JVal.ofList [])
  let salary_from ← salary.get "from"
  let empLog ← vacancy.get "employer"
  let _ ← empLog.get "id"
  let _ ← vacancy.get "url"
  let idv ← vacancy.get "id"
  let idn ← pyint idv
  let namev ← vacancy.get "name"
  let areav ← vacancy.getD "area" (JVal.ofList [("id", JVal.null)])
  let aidv ← areav.get "id"
  let aidn ← pyint aidv
  let empv ← vacancy.get "employer"
  let eidv ← empv.get "id"
  let eidn ← pyint eidv
  let urlv ← vacancy.get "url"
  .ok ⟨idn, namev, aidn, salary_from, eidn, urlv⟩

/-- Method `HHAPIClient.get_vacancies`: the flattened rows, in accumulated
order; the first record that raises aborts the whole call. -/
def get_vacancies : List JVal → Except PyError (List VacRow)
  | [] => .ok []
  | vacancy :: rest => do
    let r ← get_vacancy_row vacancy
    let rs ← get_vacancies rest
    .ok (r :: rs)

/-- The row of a record, defaulting when the record raises (used only to
state that `get_vacancies` is the per-record map). -/
def rowOrDefault (vacancy : JVal) : VacRow :=
  match get_vacancy_row vacancy with
  | .ok r => r
  | .error _ => default

/-- Stateful wrapper of `get_areas` reading `self.data`. -/
def get_areas_m (st : St) : Except PyError (List (JVal × JVal)) × St :=
  (get_areas st.data, st)

/-- Stateful wrapper of `get_employers` reading `self.data`. -/
def get_employers_m (st : St) : Except PyError (List (JVal × JVal)) × St :=
  (get_employers st.data, st)

/-- Stateful wrapper of `get_vacancies` reading `self.data`. -/
def get_vacancies_m (st : St) : Except PyError (List VacRow) × St :=
  (get_vacancies st.data, st)

/-- Modelled from the spec: the `{name, url}` value derived from the
first record of `data` whose nested area id equals `k` (`none` when no
record projects to `k`); the reference for "first occurrence wins". -/
def firstAreaSpec (k : JVal) : List JVal → Option JVal
  | [] => none
  | vacancy :: rest =>
    match vacancy.get "area" with
    | .error _ => none
    | .ok area =>
      match area.get "id" with
      | .error _ => none
      | .ok i =>
        if i = k then
          match area.get "name", area.get "url" with
          | .ok nm, .ok ur => some (JVal.ofList [("name", nm), ("url", ur)])
          | _, _ => none
        else firstAreaSpec k rest

/-- Modelled from the spec: the `{name, url, open_vacancies: 0}` value
derived from the first record of `data` whose nested employer id equals
`k`; the reference for "first occurrence wins". -/
def firstEmployerSpec (k : JVal) : List JVal → Option JVal
  | [] => none
  | vacancy :: rest =>
    match vacancy.get "employer" with
    | .error _ => none
    | .ok employer =>
      match employer.get "id" with
      | .error _ => none
      | .ok i =>
        if i = k then
          match employer.get "name", employer.get "url" with
          | .ok nm, .ok ur =>
            some (JVal.ofList [("name", nm), ("url", ur), ("open_vacancies", JVal.num 0)])
          | _, _ => none
        else firstEmployerSpec k rest

/-- Concatenation of the `items` of pages `j, j+1, ..., j+n-1`, in page
order. -/
def concatPages (items : Nat → List JVal) : Nat → Nat → List JVal
  | _, 0 => []
  | j, n + 1 => items j ++ concatPages items (j + 1) n

/-- The request trace for pages `j, j+1, ..., j+n-1` of one employer. -/
def reqSeq (emp : PyVal) : Nat → Nat → List (PyVal × Nat)
  | _, 0 => []
  | j, n + 1 => (emp, j) :: reqSeq emp (j + 1) n

/-- A fresh client state, as built by `HHAPIClient.__init__`. -/
def st0 : St := ⟨[], 0, []⟩

/-- A lookup endpoint on which every employer exists. -/
def envS200 : PyVal → Nat := fun _ => 200

/-- A list endpoint answering every request with one item and one page. -/
def envL1 : PyVal → Nat → ListResp := fun _ _ => .ok [JVal.num 7] 1

/-- The items of page `q` in the three-page scenario. -/
def exItems3 : Nat → List JVal := fun q => [JVal.num (q : Int)]

/-- A list endpoint reporting `pages: 3` on every request. -/
def envL3 : PyVal → Nat → ListResp := fun _ q => .ok (exItems3 q) 3

/-- A list endpoint that succeeds on page 0 (reporting three pages) and
raises on every later page. -/
def envLmid : PyVal → Nat → ListResp :=
  fun _ q => if q = 0 then .ok (exItems3 0) 3 else .fail

/-- A list endpoint on which every request raises. -/
def envLfail : PyVal → Nat → ListResp := fun _ _ => .fail

/-- The first end-to-end record of the specification's scenario. -/
def exRec1 : JVal := JVal.ofList
  [("id", JVal.num 1), ("name", JVal.str "A"),
   ("area", JVal.ofList [("id", JVal.num 1), ("name", JVal.str "Moscow")]),
   ("employer", JVal.ofList [("id", JVal.num 10), ("name", JVal.str "Acme")]),
   ("salary", JVal.ofList [("from", JVal.num 1000)]), ("url", JVal.str "u1")]

/-- The second end-to-end record of the specification's scenario. -/
def exRec2 : JVal := JVal.ofList
  [("id", JVal.num 2), ("name", JVal.str "B"),
   ("area", JVal.ofList [("id", JVal.num 1), ("name", JVal.str "Moscow")]),
   ("employer", JVal.ofList [("id", JVal.num 11), ("name", JVal.str "Beta")]),
   ("salary", JVal.ofList [("from", JVal.num 2000)]), ("url", JVal.str "u2")]

/-- A record sharing area id 42, first occurrence. -/
def exRec42a : JVal := JVal.ofList
  [("id", JVal.num 3), ("name", JVal.str "C"),
   ("area", JVal.ofList [("id", JVal.num 42), ("name", JVal.str "first"), ("url", JVal.str "a1")]),
   ("employer", JVal.ofList [("id", JVal.num 10), ("name", JVal.str "Acme")]),
   ("salary", JVal.ofList [("from", JVal.num 1)]), ("url", JVal.str "u3")]

/-- A record sharing area id 42 with a differing name, second occurrence. -/
def exRec42b : JVal := JVal.ofList
  [("id", JVal.num 4), ("name", JVal.str "D"),
   ("area", JVal.ofList [("id", JVal.num 42), ("name", JVal.str "second"), ("url", JVal.str "a2")]),
   ("employer", JVal.ofList [("id", JVal.num 10), ("name", JVal.str "Other")]),
   ("salary", JVal.ofList [("from", JVal.num 2)]), ("url", JVal.str "u4")]

/-- A well-formed record except that the `area` key is entirely absent. -/
def noAreaRec : JVal := JVal.ofList
  [("id", JVal.num 5), ("name", JVal.str "E"),
   ("employer", JVal.ofList [("id", JVal.num 10)]),
   ("salary", JVal.ofList [("from", JVal.num 3)]), ("url", JVal.str "u5")]

/-- A well-formed record except that the `employer` key is entirely absent. -/
def noEmpRec : JVal := JVal.ofList
  [("id", JVal.num 6), ("name", JVal.str "F"),
   ("area", JVal.ofList [("id", JVal.num 1), ("name", JVal.str "Moscow")]),
   ("salary", JVal.ofList [("from", JVal.num 4)]), ("url", JVal.str "u6")]

/-- The computed areas dict for `[exRec42a, exRec42b]`. -/
def exAreas42 : List (JVal × JVal) :=
  [(JVal.num 42, JVal.ofList [("name", JVal.str "first"), ("url", JVal.str "a1")])]

/-- The computed employers dict for `[exRec42a, exRec42b]`. -/
def exEmps10 : List (JVal × JVal) :=
  [(JVal.num 10, JVal.ofList
    [("name", JVal.str "Acme"), ("url", JVal.null), ("open_vacancies", JVal.num 0)])]

/-
Theorems.
-/

/-- Claim C4: `check_existence(id)` returns true iff the lookup status is
200; raises `ValueError('Employer ID does not exist')` (NotFound) iff
the status is 404; raises `ValueError('Failed to check employer ID')`
(LookupFailed) iff the status is anything else; and the two error
outcomes are distinguishable. -/
theorem check_existence_trichotomy :
    (∀ status : Nat,
      (check_existence status = .ok true ↔ status = 200)
      ∧ (check_existence status = .error (.valueError "Employer ID does not exist")
          ↔ status = 404)
      ∧ (check_existence status = .error (.valueError "Failed to check employer ID")
          ↔ (status ≠ 200 ∧ status ≠ 404)))
    ∧ (PyError.valueError "Employer ID does not exist"
        ≠ PyError.valueError "Failed to check employer ID") := by
  constructor
  · intro status
    by_cases h200 : status = 200 <;> by_cases h404 : status = 404 <;>
      simp [check_existence, h200, h404]
  · decide

/-- Claim C5: `valid_id` returns every positive integer unchanged, and
raises `ValueError('Invalid employer ID')` on every input that is not a
positive Python integer (`isinstance(x, int)`, under which `bool` is an
integer, with value greater than zero). -/
theorem valid_id_characterization :
    (∀ n : Int, 0 < n → valid_id (.vint n) = .ok (.vint n))
    ∧ (∀ v : PyVal, ¬(v.isInstInt = true ∧ 0 < v.intVal) →
        valid_id v = .error (.valueError "Invalid employer ID")) := by
  constructor
  · intro n hn
    simp [valid_id, PyVal.isInstInt, PyVal.intVal, hn]
  · intro v hv
    rw [valid_id, if_neg]
    simp only [Bool.and_eq_true, decide_eq_true_eq]
    exact hv

/-- Witness for C5 at `n = 7` and at the string input `"x"`. -/
theorem valid_id_characterization_witness :
    valid_id (.vint 7) = .ok (.vint 7)
    ∧ valid_id (.vstr "x") = .error (.valueError "Invalid employer ID") :=
  ⟨valid_id_characterization.1 7 (by decide),
   valid_id_characterization.2 (.vstr "x") (by decide)⟩

/-- Claim C7: On a list of well-formed records (each record's flattening
raises nothing), `get_vacancies` returns exactly the per-record map, in
accumulated order: one output row per input record, no reordering, no
deduplication. -/
theorem get_vacancies_one_row_per_record :
    ∀ data : List JVal, (∀ v ∈ data, isErr (get_vacancy_row v) = false) →
      get_vacancies data = .ok (data.map rowOrDefault) := by
  intro data h
  induction data with
  | nil => rfl
  | cons v rest ih =>
    have hv := h v (List.mem_cons_self _ _)
    cases hr : get_vacancy_row v with
    | error e => rw [hr] at hv; simp [isErr] at hv
    | ok r =>
      have hrest := ih (fun u hu => h u (List.mem_cons_of_mem _ hu))
      simp [get_vacancies, hr, hrest, rowOrDefault, bind, Except.bind]

/-- Witness for C7 on the specification's two-record scenario. -/
theorem get_vacancies_one_row_per_record_witness :
    get_vacancies [exRec1, exRec2] = .ok ([exRec1, exRec2].map rowOrDefault) :=
  get_vacancies_one_row_per_record [exRec1, exRec2] (by decide)

theorem isErr_bind {ε α β : Type} (x : Except ε α) (f : α → Except ε β)
    (h : ∀ a, x = .ok a → isErr (f a) = true) : isErr (x >>= f) = true := by
  cases x with
  | error e => simp [bind, Except.bind, isErr]
  | ok a => simpa [bind, Except.bind] using h a rfl

theorem JVal.isDict_of_get_ok {v : JVal} {k : String} {x : JVal}
    (h : v.get k = .ok x) : v.isDict = true := by
  by_cases hd : v.isDict = true
  · exact hd
  · rw [JVal.get, if_neg (by simpa using hd)] at h
    cases h

/-- A record that raises makes the whole `get_vacancies` call raise. -/
theorem isErr_get_vacancies_of_mem {data : List JVal} {v : JVal} (hmem : v ∈ data)
    (hv : isErr (get_vacancy_row v) = true) : isErr (get_vacancies data) = true := by
  induction data with
  | nil => cases hmem
  | cons u rest ih =>
    cases h1 : get_vacancy_row u with
    | error e => simp [get_vacancies, h1, bind, Except.bind, isErr]
    | ok r =>
      rcases List.mem_cons.mp hmem with h | h
      · rw [h] at hv; rw [h1] at hv; simp [isErr] at hv
      · cases h2 : get_vacancies rest with
        | error e => simp [get_vacancies, h1, h2, bind, Except.bind, isErr]
        | ok rs =>
          have := ih h
          rw [h2] at this
          simp [isErr] at this

/-- A dict record without an `area` key makes `get_vacancy_row` raise:
`vacancy.get('area', {'id': None})` yields the default, whose `id` is
`None`, and `int(None)` raises `TypeError`. -/
theorem row_missing_area {v : JVal} (hd : v.isDict = true)
    (hl : v.lookup "area" = none) : isErr (get_vacancy_row v) = true := by
  rw [get_vacancy_row]
  apply isErr_bind; intro salary _
  apply isErr_bind; intro sf _
  apply isErr_bind; intro empLog _
  apply isErr_bind; intro eid _
  apply isErr_bind; intro u1 _
  apply isErr_bind; intro idv _
  apply isErr_bind; intro idn _
  apply isErr_bind; intro namev _
  apply isErr_bind; intro areav h9
  rw [JVal.getD, if_pos (by simpa using hd), hl, Option.getD_none] at h9
  cases h9
  apply isErr_bind; intro aidv h10
  rw [show (JVal.ofList [("id", JVal.null)]).get "id" = .ok JVal.null from rfl] at h10
  cases h10
  apply isErr_bind; intro aidn h11
  cases h11

/-- A dict record without an `employer` key makes `get_vacancy_row`
raise: `vacancy.get('employer')` yields `None` and `.get('id')` on it
raises `AttributeError`. -/
theorem row_missing_employer {v : JVal} (hd : v.isDict = true)
    (hl : v.lookup "employer" = none) : isErr (get_vacancy_row v) = true := by
  rw [get_vacancy_row]
  apply isErr_bind; intro salary _
  apply isErr_bind; intro sf _
  apply isErr_bind; intro empLog h3
  rw [JVal.get, if_pos (by simpa using hd), hl, Option.getD_none] at h3
  cases h3
  apply isErr_bind; intro eid h4
  cases h4

/-- Claim C8: A record whose `area` key is entirely absent defeats
`get_vacancies`: the absent area defaults to `{'id': None}`, whose id is
`None`, `int(None)` raises `TypeError`, and the whole call fails rather
than skipping or defaulting the record. -/
theorem get_vacancies_missing_area_fails :
    (∀ v : JVal, v.isDict = true → v.lookup "area" = none →
        v.getD "area" (JVal.ofList [("id", JVal.null)])
            = .ok (JVal.ofList [("id", JVal.null)])
        ∧ (JVal.ofList [("id", JVal.null)]).get "id" = .ok JVal.null
        ∧ pyint JVal.null = .error (.typeError "int argument must not be NoneType"))
    ∧ (∀ (data : List JVal) (v : JVal), v ∈ data → v.isDict = true →
        v.lookup "area" = none → isErr (get_vacancies data) = true) := by
  constructor
  · intro v hd hl
    refine ⟨?_, rfl, rfl⟩
    rw [JVal.getD, if_pos (by simpa using hd), hl, Option.getD_none]
  · intro data v hmem hd hl
    exact isErr_get_vacancies_of_mem hmem (row_missing_area hd hl)

/-- Witness for C8 on a concrete record without an `area` key. -/
theorem get_vacancies_missing_area_fails_witness :
    (noAreaRec.getD "area" (JVal.ofList [("id", JVal.null)])
        = .ok (JVal.ofList [("id", JVal.null)])
      ∧ (JVal.ofList [("id", JVal.null)]).get "id" = .ok JVal.null
      ∧ pyint JVal.null = .error (.typeError "int argument must not be NoneType"))
    ∧ isErr (get_vacancies [exRec1, noAreaRec]) = true :=
  ⟨get_vacancies_missing_area_fails.1 noAreaRec (by decide) (by decide),
   get_vacancies_missing_area_fails.2 [exRec1, noAreaRec] noAreaRec
     (by simp) (by decide) (by decide)⟩

/-- If a dict on which `.get k` is defined returned `ok`, the result is
the lookup with `None` default. -/
theorem JVal.get_eq_of_isDict {v : JVal} (hd : v.isDict = true) (k : String) :
    v.get k = .ok ((v.lookup k).getD JVal.null) := by
  rw [JVal.get, if_pos (by simpa using hd)]

/-- A dict record with no `area` key makes `get_areas_go` raise, for
every state of the `areas` dict. -/
theorem isErr_get_areas_go_of_mem :
    ∀ (data : List JVal) (acc : List (JVal × JVal)) (v : JVal), v ∈ data →
      v.isDict = true → v.lookup "area" = none →
      isErr (get_areas_go acc data) = true := by
  intro data
  induction data with
  | nil => intro acc v hmem; cases hmem
  | cons u rest ih =>
    intro acc v hmem hd hl
    rcases List.mem_cons.mp hmem with h | h
    · subst h
      rw [get_areas_go]
      apply isErr_bind; intro area h1
      rw [JVal.get_eq_of_isDict hd, hl, Option.getD_none] at h1
      cases h1
      apply isErr_bind; intro i h2
      cases h2
    · cases h1 : u.get "area" with
      | error e => simp [get_areas_go, h1, bind, Except.bind, isErr]
      | ok area =>
        cases h2 : area.get "id" with
        | error e => simp [get_areas_go, h1, h2, bind, Except.bind, isErr]
        | ok i =>
          have hda : area.isDict = true := JVal.isDict_of_get_ok h2
          by_cases hs : (alookup i acc).isSome
          · simp only [get_areas_go, h1, h2, bind, Except.bind, hs, if_true]
            exact ih acc v h hd hl
          · simp only [get_areas_go, h1, h2, bind, Except.bind, hs, if_false,
              Bool.false_eq_true, JVal.get_eq_of_isDict hda]
            exact ih _ v h hd hl

/-- A dict record with no `employer` key makes `get_employers_go` raise,
for every state of the `employers` dict. -/
theorem isErr_get_employers_go_of_mem :
    ∀ (data : List JVal) (acc : List (JVal × JVal)) (v : JVal), v ∈ data →
      v.isDict = true → v.lookup "employer" = none →
      isErr (get_employers_go acc data) = true := by
  intro data
  induction data with
  | nil => intro acc v hmem; cases hmem
  | cons u rest ih =>
    intro acc v hmem hd hl
    rcases List.mem_cons.mp hmem with h | h
    · subst h
      rw [get_employers_go]
      apply isErr_bind; intro employer h1
      rw [JVal.get_eq_of_isDict hd, hl, Option.getD_none] at h1
      cases h1
      apply isErr_bind; intro i h2
      cases h2
    · cases h1 : u.get "employer" with
      | error e => simp [get_employers_go, h1, bind, Except.bind, isErr]
      | ok employer =>
        cases h2 : employer.get "id" with
        | error e => simp [get_employers_go, h1, h2, bind, Except.bind, isErr]
        | ok i =>
          have hda : employer.isDict = true := JVal.isDict_of_get_ok h2
          by_cases hs : (alookup i acc).isSome
          · simp only [get_employers_go, h1, h2, bind, Except.bind, hs, if_true]
            exact ih acc v h hd hl
          · simp only [get_employers_go, h1, h2, bind, Except.bind, hs, if_false,
              Bool.false_eq_true, JVal.get_eq_of_isDict hda]
            exact ih _ v h hd hl

/-- Claim C10: Every projection over nested objects assumes the nested
object is present: a record without an `area` key makes `get_areas`
raise (the lookup on the resulting `None` has no guard or default), and
a record without an `employer` key makes both `get_employers` and
`get_vacancies` raise, rather than skipping the record. -/
theorem missing_nested_objects_raise :
    (∀ v : JVal, v.isDict = true → v.lookup "area" = none →
        v.get "area" = .ok JVal.null
        ∧ JVal.null.get "id" = .error (.attributeError "object has no attribute get"))
    ∧ (∀ (data : List JVal) (v : JVal), v ∈ data → v.isDict = true →
        v.lookup "area" = none → isErr (get_areas data) = true)
    ∧ (∀ (data : List JVal) (v : JVal), v ∈ data → v.isDict = true →
        v.lookup "employer" = none →
        isErr (get_employers data) = true ∧ isErr (get_vacancies data) = true) := by
  refine ⟨?_, ?_, ?_⟩
  · intro v hd hl
    exact ⟨by rw [JVal.get_eq_of_isDict hd, hl, Option.getD_none], rfl⟩
  · intro data v hmem hd hl
    exact isErr_get_areas_go_of_mem data [] v hmem hd hl
  · intro data v hmem hd hl
    exact ⟨isErr_get_employers_go_of_mem data [] v hmem hd hl,
      isErr_get_vacancies_of_mem hmem (row_missing_employer hd hl)⟩

/-- Witness for C10 on concrete records lacking the `area` key
(respectively the `employer` key). -/
theorem missing_nested_objects_raise_witness :
    (noAreaRec.get "area" = .ok JVal.null
      ∧ JVal.null.get "id" = .error (.attributeError "object has no attribute get"))
    ∧ isErr (get_areas [exRec1, noAreaRec]) = true
    ∧ isErr (get_employers [exRec1, noEmpRec]) = true
    ∧ isErr (get_vacancies [exRec1, noEmpRec]) = true :=
  ⟨missing_nested_objects_raise.1 noAreaRec (by decide) (by decide),
   missing_nested_objects_raise.2.1 [exRec1, noAreaRec] noAreaRec (by simp)
     (by decide) (by decide),
   (missing_nested_objects_raise.2.2 [exRec1, noEmpRec] noEmpRec (by simp)
     (by decide) (by decide)).1,
   (missing_nested_objects_raise.2.2 [exRec1, noEmpRec] noEmpRec (by simp)
     (by decide) (by decide)).2⟩

theorem alookup_append (k : JVal) (l1 l2 : List (JVal × JVal)) :
    alookup k (l1 ++ l2) = match alookup k l1 with
      | some v => some v
      | none => alookup k l2 := by
  induction l1 with
  | nil => simp [alookup]
  | cons p rest ih =>
    obtain ⟨k', v⟩ := p
    by_cases h : k' = k <;> simp [alookup, h, ih]

theorem not_mem_keys {i : JVal} {acc : List (JVal × JVal)}
    (h : (alookup i acc).isSome = false) : i ∉ acc.map Prod.fst := by
  induction acc with
  | nil => simp
  | cons p rest ih =>
    obtain ⟨k', v⟩ := p
    by_cases hk : k' = i
    · subst hk; simp [alookup] at h
    · rw [alookup, if_neg hk] at h
      simp only [List.map_cons, List.mem_cons]
      rintro (he | he)
      · exact hk he.symm
      · exact ih h he

/-- Lookup characterization of the `get_areas` loop: a key maps to its
value in the incoming `areas` dict if present there, otherwise to the
value projected from the first record of `data` carrying that area id. -/
theorem get_areas_go_alookup :
    ∀ (data : List JVal) (acc m : List (JVal × JVal)),
      get_areas_go acc data = .ok m →
      ∀ k, alookup k m = match alookup k acc with
        | some v => some v
        | none => firstAreaSpec k data := by
  intro data
  induction data with
  | nil =>
    intro acc m hm k
    rw [get_areas_go] at hm
    cases hm
    cases h : alookup k acc <;> simp [firstAreaSpec, h]
  | cons u rest ih =>
    intro acc m hm k
    rw [get_areas_go] at hm
    cases h1 : u.get "area" with
    | error e => rw [h1] at hm; cases hm
    | ok area =>
      cases h2 : area.get "id" with
      | error e => simp [bind, Except.bind, h1, h2] at hm
      | ok i =>
        have hda : area.isDict = true := JVal.isDict_of_get_ok h2
        by_cases hs : (alookup i acc).isSome
        · have hm' : get_areas_go acc rest = .ok m := by
            simpa [bind, Except.bind, h1, h2, hs] using hm
          rw [ih acc m hm' k]
          by_cases hik : i = k
          · subst hik
            obtain ⟨v, hv⟩ := Option.isSome_iff_exists.mp hs
            rw [hv]
          · cases halo : alookup k acc <;>
              simp [firstAreaSpec, h1, h2, hik, halo]
        · have hm' : get_areas_go
              (acc ++ [(i, JVal.ofList [("name", (area.lookup "name").getD JVal.null),
                ("url", (area.lookup "url").getD JVal.null)])]) rest = .ok m := by
            simpa [bind, Except.bind, h1, h2, hs, JVal.get_eq_of_isDict hda] using hm
          rw [ih _ m hm' k, alookup_append]
          by_cases hik : i = k
          · subst hik
            have halo : alookup i acc = none := by
              cases halo : alookup i acc with
              | none => rfl
              | some v => rw [halo] at hs; simp at hs
            rw [halo]
            simp [alookup, firstAreaSpec, h1, h2, JVal.get_eq_of_isDict hda]
          · cases halo : alookup k acc <;>
              simp [alookup, firstAreaSpec, h1, h2, hik, halo]

/-- The `get_areas` loop keeps the keys of the areas dict distinct. -/
theorem get_areas_go_nodup :
    ∀ (data : List JVal) (acc m : List (JVal × JVal)),
      (acc.map Prod.fst).Nodup → get_areas_go acc data = .ok m →
      (m.map Prod.fst).Nodup := by
  intro data
  induction data with
  | nil =>
    intro acc m ha hm
    rw [get_areas_go] at hm
    cases hm
    exact ha
  | cons u rest ih =>
    intro acc m ha hm
    rw [get_areas_go] at hm
    cases h1 : u.get "area" with
    | error e => rw [h1] at hm; cases hm
    | ok area =>
      cases h2 : area.get "id" with
      | error e => simp [bind, Except.bind, h1, h2] at hm
      | ok i =>
        have hda : area.isDict = true := JVal.isDict_of_get_ok h2
        by_cases hs : (alookup i acc).isSome
        · have hm' : get_areas_go acc rest = .ok m := by
            simpa [bind, Except.bind, h1, h2, hs] using hm
          exact ih acc m ha hm'
        · have hm' : get_areas_go
              (acc ++ [(i, JVal.ofList [("name", (area.lookup "name").getD JVal.null),
                ("url", (area.lookup "url").getD JVal.null)])]) rest = .ok m := by
            simpa [bind, Except.bind, h1, h2, hs, JVal.get_eq_of_isDict hda] using hm
          refine ih _ m ?_ hm'
          have hnm : i ∉ acc.map Prod.fst := not_mem_keys (by simpa using hs)
          simp [List.nodup_append, ha, hnm]

/-- Lookup characterization of the `get_employers` loop. -/
theorem get_employers_go_alookup :
    ∀ (data : List JVal) (acc m : List (JVal × JVal)),
      get_employers_go acc data = .ok m →
      ∀ k, alookup k m = match alookup k acc with
        | some v => some v
        | none => firstEmployerSpec k data := by
  intro data
  induction data with
  | nil =>
    intro acc m hm k
    rw [get_employers_go] at hm
    cases hm
    cases h : alookup k acc <;> simp [firstEmployerSpec, h]
  | cons u rest ih =>
    intro acc m hm k
    rw [get_employers_go] at hm
    cases h1 : u.get "employer" with
    | error e => rw [h1] at hm; cases hm
    | ok employer =>
      cases h2 : employer.get "id" with
      | error e => simp [bind, Except.bind, h1, h2] at hm
      | ok i =>
        have hda : employer.isDict = true := JVal.isDict_of_get_ok h2
        by_cases hs : (alookup i acc).isSome
        · have hm' : get_employers_go acc rest = .ok m := by
            simpa [bind, Except.bind, h1, h2, hs] using hm
          rw [ih acc m hm' k]
          by_cases hik : i = k
          · subst hik
            obtain ⟨v, hv⟩ := Option.isSome_iff_exists.mp hs
            rw [hv]
          · cases halo : alookup k acc <;>
              simp [firstEmployerSpec, h1, h2, hik, halo]
        · have hm' : get_employers_go
              (acc ++ [(i, JVal.ofList [("name", (employer.lookup "name").getD JVal.null),
                ("url", (employer.lookup "url").getD JVal.null),
                ("open_vacancies", JVal.num 0)])]) rest = .ok m := by
            simpa [bind, Except.bind, h1, h2, hs, JVal.get_eq_of_isDict hda] using hm
          rw [ih _ m hm' k, alookup_append]
          by_cases hik : i = k
          · subst hik
            have halo : alookup i acc = none := by
              cases halo : alookup i acc with
              | none => rfl
              | some v => rw [halo] at hs; simp at hs
            rw [halo]
            simp [alookup, firstEmployerSpec, h1, h2, JVal.get_eq_of_isDict hda]
          · cases halo : alookup k acc <;>
              simp [alookup, firstEmployerSpec, h1, h2, hik, halo]

/-- The `get_employers` loop keeps the keys of the dict distinct. -/
theorem get_employers_go_nodup :
    ∀ (data : List JVal) (acc m : List (JVal × JVal)),
      (acc.map Prod.fst).Nodup → get_employers_go acc data = .ok m →
      (m.map Prod.fst).Nodup := by
  intro data
  induction data with
  | nil =>
    intro acc m ha hm
    rw [get_employers_go] at hm
    cases hm
    exact ha
  | cons u rest ih =>
    intro acc m ha hm
    rw [get_employers_go] at hm
    cases h1 : u.get "employer" with
    | error e => rw [h1] at hm; cases hm
    | ok employer =>
      cases h2 : employer.get "id" with
      | error e => simp [bind, Except.bind, h1, h2] at hm
      | ok i =>
        have hda : employer.isDict = true := JVal.isDict_of_get_ok h2
        by_cases hs : (alookup i acc).isSome
        · have hm' : get_employers_go acc rest = .ok m := by
            simpa [bind, Except.bind, h1, h2, hs] using hm
          exact ih acc m ha hm'
        · have hm' : get_employers_go
              (acc ++ [(i, JVal.ofList [("name", (employer.lookup "name").getD JVal.null),
                ("url", (employer.lookup "url").getD JVal.null),
                ("open_vacancies", JVal.num 0)])]) rest = .ok m := by
            simpa [bind, Except.bind, h1, h2, hs, JVal.get_eq_of_isDict hda] using hm
          refine ih _ m ?_ hm'
          have hnm : i ∉ acc.map Prod.fst := not_mem_keys (by simpa using hs)
          simp [List.nodup_append, ha, hnm]

/-- Claim C6: `get_areas` and `get_employers` deduplicate by the nested
area id (respectively employer id): the returned dict has pairwise
distinct keys, and each key maps to the value derived from the
first-seen record with that id. -/
theorem projections_first_seen :
    (∀ (data : List JVal) (m : List (JVal × JVal)), get_areas data = .ok m →
      (m.map Prod.fst).Nodup ∧ ∀ k, alookup k m = firstAreaSpec k data)
    ∧ (∀ (data : List JVal) (m : List (JVal × JVal)), get_employers data = .ok m →
      (m.map Prod.fst).Nodup ∧ ∀ k, alookup k m = firstEmployerSpec k data) := by
  constructor
  · intro data m hm
    refine ⟨get_areas_go_nodup data [] m (by simp) hm, fun k => ?_⟩
    have := get_areas_go_alookup data [] m hm k
    simpa [alookup] using this
  · intro data m hm
    refine ⟨get_employers_go_nodup data [] m (by simp) hm, fun k => ?_⟩
    have := get_employers_go_alookup data [] m hm k
    simpa [alookup] using this

/-- Witness for C6: two records share area id 42 (and employer id 10)
with differing names; the returned dicts retain the first-seen value. -/
theorem projections_first_seen_witness :
    (exAreas42.map Prod.fst).Nodup
    ∧ alookup (JVal.num 42) exAreas42 = firstAreaSpec (JVal.num 42) [exRec42a, exRec42b]
    ∧ (exEmps10.map Prod.fst).Nodup
    ∧ alookup (JVal.num 10) exEmps10
        = firstEmployerSpec (JVal.num 10) [exRec42a, exRec42b] :=
  ⟨(projections_first_seen.1 [exRec42a, exRec42b] exAreas42 (by decide)).1,
   (projections_first_seen.1 [exRec42a, exRec42b] exAreas42 (by decide)).2 (JVal.num 42),
   (projections_first_seen.2 [exRec42a, exRec42b] exEmps10 (by decide)).1,
   (projections_first_seen.2 [exRec42a, exRec42b] exEmps10 (by decide)).2 (JVal.num 10)⟩

/-- Pagination loop invariant when every page succeeds with a constant
total page count `P`: starting from page `j < P`, the loop requests
pages `j, ..., P-1` in order, appends their items in page order, and
stops with the cursor on `P - 1`. -/
theorem load_pages_all_ok (envl : PyVal → Nat → ListResp) (emp : PyVal)
    (items : Nat → List JVal) (P : Nat)
    (henv : ∀ q, envl emp q = .ok (items q) (P : Int)) :
    ∀ (fuel j : Nat) (st : St), st.page = j → j < P → P - j ≤ fuel →
      load_pages envl emp fuel st =
        (⟨st.data ++ concatPages items j (P - j), P - 1,
          st.requests ++ reqSeq emp j (P - j)⟩, none) := by
  intro fuel
  induction fuel with
  | zero => intro j st hp hj hf; omega
  | succ fuel ih =>
    intro j st hp hj hf
    simp only [load_pages, hp, henv j]
    by_cases hstop : j + 1 = P
    · rw [if_pos (by omega : ((j : Nat) : Int) ≥ (P : Int) - 1)]
      have hPj : P - j = 1 := by omega
      rw [hPj]
      simp [concatPages, reqSeq, St.mk.injEq]
      omega
    · rw [if_neg (by omega : ¬ ((j : Nat) : Int) ≥ (P : Int) - 1)]
      rw [ih (j + 1) ⟨st.data ++ items j, j + 1, st.requests ++ [(emp, j)]⟩ rfl
        (by omega) (by omega)]
      have hPj : P - j = (P - (j + 1)) + 1 := by omega
      rw [hPj]
      simp [concatPages, reqSeq, List.append_assoc]

theorem reqSeq_eq_range' (emp : PyVal) :
    ∀ (n j : Nat), reqSeq emp j n = (List.range' j n).map (fun q => (emp, q)) := by
  intro n
  induction n with
  | zero => intro j; simp [reqSeq]
  | succ n ih => intro j; rw [reqSeq, List.range'_succ, List.map_cons, ih]

/-- Claim C3: When the id validates, the employer exists, and every list
request succeeds reporting a constant total page count `P ≥ 1`,
`load_vacancy_by_emp_id` issues exactly `P` list requests with page
indices `0, 1, ..., P-1` in that order, appends exactly the
concatenation of the pages' items in page order, stops with the page
cursor on `P - 1`, and raises nothing. -/
theorem load_vacancy_pagination (envs : PyVal → Nat) (envl : PyVal → Nat → ListResp)
    (items : Nat → List JVal) (P fuel : Nat) (n : Int) (st : St)
    (hn : 0 < n) (hs : envs (.vint n) = 200)
    (henv : ∀ q, envl (.vint n) q = .ok (items q) (P : Int))
    (hP : 1 ≤ P) (hfuel : P ≤ fuel) :
    load_vacancy_by_emp_id envs envl fuel (.vint n) st =
      (⟨st.data ++ concatPages items 0 P, P - 1,
        st.requests ++ (List.range P).map (fun q => ((.vint n : PyVal), q))⟩, none) := by
  have hv : valid_id (.vint n) = .ok (.vint n) := by
    simp [valid_id, PyVal.isInstInt, PyVal.intVal, hn]
  simp only [load_vacancy_by_emp_id, hv, hs,
    show check_existence 200 = Except.ok true from rfl]
  rw [load_pages_all_ok envl (.vint n) items P henv fuel 0 _ rfl (by omega) (by omega)]
  simp [reqSeq_eq_range', List.range_eq_range']

/-- Witness for C3: the specification's `pages: 3` scenario — exactly
three requests, pages 0, 1, 2, items concatenated in page order. -/
theorem load_vacancy_pagination_witness :
    load_vacancy_by_emp_id envS200 envL3 3 (.vint 1) st0 =
      (⟨st0.data ++ concatPages exItems3 0 3, 3 - 1,
        st0.requests ++ (List.range 3).map (fun q => ((.vint 1 : PyVal), q))⟩, none) :=
  load_vacancy_pagination envS200 envL3 exItems3 3 3 1 st0 (by decide) rfl
    (fun q => rfl) (by decide) (by decide)

/-- Pagination loop invariant for a run that fails at page `k` after
pages `j, ..., k-1` succeeded (each reporting enough pages to
continue): exactly the items of the successful pages are appended, the
request at page `k` is still recorded, and the failure is swallowed. -/
theorem load_pages_stops_at_fail (envl : PyVal → Nat → ListResp) (emp : PyVal)
    (items : Nat → List JVal) (pages : Nat → Int) (k : Nat)
    (hf : envl emp k = .fail) :
    ∀ (fuel j : Nat) (st : St), st.page = j → j ≤ k → k - j < fuel →
      (∀ q, j ≤ q → q < k → envl emp q = .ok (items q) (pages q)
        ∧ (q : Int) < pages q - 1) →
      load_pages envl emp fuel st =
        (⟨st.data ++ concatPages items j (k - j), k,
          st.requests ++ reqSeq emp j (k - j + 1)⟩, none) := by
  intro fuel
  induction fuel with
  | zero => intro j st hp hj hfl; omega
  | succ fuel ih =>
    intro j st hp hj hfl hq
    by_cases hjk : j = k
    · subst hjk
      simp only [load_pages, hp, hf]
      have hz : j - j = 0 := by omega
      rw [hz]
      simp [concatPages, reqSeq]
    · obtain ⟨hql, hqc⟩ := hq j (by omega) (by omega)
      simp only [load_pages, hp, hql]
      rw [if_neg (by omega : ¬ ((j : Nat) : Int) ≥ pages j - 1)]
      rw [ih (j + 1) ⟨st.data ++ items j, j + 1, st.requests ++ [(emp, j)]⟩ rfl
        (by omega) (by omega) (fun q h1 h2 => hq q (by omega) h2)]
      have hkj : k - j = (k - (j + 1)) + 1 := by omega
      rw [hkj]
      simp [concatPages, reqSeq, List.append_assoc]

/-- Claim C2: When the id validates and the employer exists, and the list
requests for pages `0, ..., k-1` succeed (each reporting enough pages to
continue) but the request for page `k` raises a transport/HTTP error,
`load_vacancy_by_emp_id` swallows the error inside the loop: it returns
with exactly the items of the pages fetched before the failure appended,
and no exception escapes to the caller. -/
theorem load_vacancy_midloop_failure (envs : PyVal → Nat) (envl : PyVal → Nat → ListResp)
    (items : Nat → List JVal) (pages : Nat → Int) (k fuel : Nat) (n : Int) (st : St)
    (hn : 0 < n) (hs : envs (.vint n) = 200)
    (hq : ∀ q, q < k → envl (.vint n) q = .ok (items q) (pages q)
      ∧ (q : Int) < pages q - 1)
    (hf : envl (.vint n) k = .fail) (hfuel : k < fuel) :
    load_vacancy_by_emp_id envs envl fuel (.vint n) st =
      (⟨st.data ++ concatPages items 0 k, k,
        st.requests ++ reqSeq (.vint n) 0 (k + 1)⟩, none) := by
  have hv : valid_id (.vint n) = .ok (.vint n) := by
    simp [valid_id, PyVal.isInstInt, PyVal.intVal, hn]
  simp only [load_vacancy_by_emp_id, hv, hs,
    show check_existence 200 = Except.ok true from rfl]
  rw [load_pages_stops_at_fail envl (.vint n) items pages k hf fuel 0 _ rfl
    (by omega) (by omega) (fun q h1 h2 => hq q h2)]
  simp

/-- Witness for C2: the specification's scenario — page 0 succeeds
(reporting three pages), page 1 raises; the accumulated list holds
exactly page 0's items and no exception escapes. -/
theorem load_vacancy_midloop_failure_witness :
    load_vacancy_by_emp_id envS200 envLmid 5 (.vint 1) st0 =
      (⟨st0.data ++ concatPages exItems3 0 1, 1,
        st0.requests ++ reqSeq (.vint 1) 0 2⟩, none) :=
  load_vacancy_midloop_failure envS200 envLmid exItems3 (fun _ => 3) 1 5 1 st0
    (by decide) rfl
    (fun q hqk => by
      interval_cases q
      exact ⟨rfl, by decide⟩)
    rfl (by decide)

/-- The pagination loop only appends to the accumulated list. -/
theorem load_pages_data_append (envl : PyVal → Nat → ListResp) (emp : PyVal) :
    ∀ (fuel : Nat) (st : St),
      ∃ ext, ((load_pages envl emp fuel st).1).data = st.data ++ ext := by
  intro fuel
  induction fuel with
  | zero => intro st; exact ⟨[], by simp [load_pages]⟩
  | succ fuel ih =>
    intro st
    cases h : envl emp st.page with
    | fail => exact ⟨[], by simp [load_pages, h]⟩
    | ok items pages =>
      by_cases hc : ((st.page : Int) ≥ pages - 1)
      · exact ⟨items, by simp [load_pages, h, hc]⟩
      · obtain ⟨ext, hext⟩ :=
          ih ⟨st.data ++ items, st.page + 1, st.requests ++ [(emp, st.page)]⟩
        refine ⟨items ++ ext, ?_⟩
        simp only [load_pages, h, hc, if_false]
        rw [show st.data ++ (items ++ ext) = (st.data ++ items) ++ ext from
          (List.append_assoc _ _ _).symm]
        exact hext

/-- A single-employer fetch only appends to the accumulated list
(whether it returns or raises). -/
theorem load_vacancy_data_append (envs : PyVal → Nat) (envl : PyVal → Nat → ListResp)
    (fuel : Nat) (e : PyVal) (st : St) :
    ∃ ext, ((load_vacancy_by_emp_id envs envl fuel e st).1).data = st.data ++ ext := by
  cases h1 : valid_id e with
  | error err => exact ⟨[], by simp [load_vacancy_by_emp_id, h1]⟩
  | ok v =>
    cases h2 : check_existence (envs v) with
    | error err => exact ⟨[], by simp [load_vacancy_by_emp_id, h1, h2]⟩
    | ok b =>
      obtain ⟨ext, hext⟩ := load_pages_data_append envl v fuel ⟨st.data, 0, st.requests⟩
      exact ⟨ext, by simpa [load_vacancy_by_emp_id, h1, h2] using hext⟩

/-- A batch fetch only appends to the accumulated list. -/
theorem batch_data_append (envs : PyVal → Nat) (envl : PyVal → Nat → ListResp)
    (fuel : Nat) :
    ∀ (ids : List PyVal) (st : St),
      ∃ ext, ((load_vacancies_by_emp_ids envs envl fuel ids st).1).data
        = st.data ++ ext := by
  intro ids
  induction ids with
  | nil => intro st; exact ⟨[], by simp [load_vacancies_by_emp_ids]⟩
  | cons e rest ih =>
    intro st
    obtain ⟨ext1, hext1⟩ := load_vacancy_data_append envs envl fuel e st
    rcases hl : load_vacancy_by_emp_id envs envl fuel e st with ⟨st', oerr⟩
    rw [hl] at hext1
    cases oerr with
    | none =>
      obtain ⟨ext2, hext2⟩ := ih st'
      refine ⟨ext1 ++ ext2, ?_⟩
      simp only [load_vacancies_by_emp_ids, hl]
      rw [hext2, hext1, List.append_assoc]
    | some err =>
      refine ⟨ext1, ?_⟩
      simp only [load_vacancies_by_emp_ids, hl]
      exact hext1

/-- Claim C9: The accumulated list only grows: the pagination loop, the
single-employer fetch and the batch fetch each only append to
`self.data` (no deduplication happens while accumulating — fetching the
same employer twice stores its items twice, as the concrete double
fetch shows), and the projection operations return the state
unchanged. -/
theorem data_append_only :
    (∀ (envl : PyVal → Nat → ListResp) (emp : PyVal) (fuel : Nat) (st : St),
      ∃ ext, ((load_pages envl emp fuel st).1).data = st.data ++ ext)
    ∧ (∀ (envs : PyVal → Nat) (envl : PyVal → Nat → ListResp) (fuel : Nat)
        (e : PyVal) (st : St),
      ∃ ext, ((load_vacancy_by_emp_id envs envl fuel e st).1).data = st.data ++ ext)
    ∧ (∀ (envs : PyVal → Nat) (envl : PyVal → Nat → ListResp) (fuel : Nat)
        (ids : List PyVal) (st : St),
      ∃ ext, ((load_vacancies_by_emp_ids envs envl fuel ids st).1).data
        = st.data ++ ext)
    ∧ ((load_vacancies_by_emp_ids envS200 envL1 2 [.vint 1, .vint 1] st0).1).data
        = [JVal.num 7] ++ [JVal.num 7]
    ∧ (∀ st : St, (get_info st).2 = st ∧ (get_areas_m st).2 = st
        ∧ (get_employers_m st).2 = st ∧ (get_vacancies_m st).2 = st) :=
  ⟨load_pages_data_append, load_vacancy_data_append,
   fun envs envl fuel => batch_data_append envs envl fuel,
   by decide,
   fun st => ⟨rfl, rfl, rfl, rfl⟩⟩

/-- The pagination loop never lets an exception escape: its error
component is always `none`, whatever the transport does. -/
theorem load_pages_no_raise (envl : PyVal → Nat → ListResp) (emp : PyVal) :
    ∀ (fuel : Nat) (st : St), (load_pages envl emp fuel st).2 = none := by
  intro fuel
  induction fuel with
  | zero => intro st; rfl
  | succ fuel ih =>
    intro st
    cases h : envl emp st.page with
    | fail => simp [load_pages, h]
    | ok items pages =>
      by_cases hc : ((st.page : Int) ≥ pages - 1)
      · simp [load_pages, h, hc]
      · simp only [load_pages, h, hc, if_false]
        exact ih _

/-- A single-employer fetch raises nothing when the id validates and
the employer lookup returns 200, whatever the list transport does. -/
theorem load_vacancy_no_fatal (envs : PyVal → Nat) (envl : PyVal → Nat → ListResp)
    (fuel : Nat) (e : PyVal) (st : St)
    (hv : valid_id e = .ok e) (hs : envs e = 200) :
    (load_vacancy_by_emp_id envs envl fuel e st).2 = none := by
  simp only [load_vacancy_by_emp_id, hv, hs,
    show check_existence 200 = Except.ok true from rfl]
  exact load_pages_no_raise envl e fuel _

/-- When every employer in the batch validates and exists, the whole
batch runs to completion in order, folding the per-employer fetches. -/
theorem batch_all_ok (envs : PyVal → Nat) (envl : PyVal → Nat → ListResp)
    (fuel : Nat) :
    ∀ (ids : List PyVal) (st : St), (∀ i ∈ ids, valid_id i = .ok i ∧ envs i = 200) →
      load_vacancies_by_emp_ids envs envl fuel ids st
        = (ids.foldl (fun s i => (load_vacancy_by_emp_id envs envl fuel i s).1) st,
           none) := by
  intro ids
  induction ids with
  | nil => intro st h; rfl
  | cons e rest ih =>
    intro st h
    obtain ⟨hv, hs⟩ := h e (List.mem_cons_self _ _)
    have h2 := load_vacancy_no_fatal envs envl fuel e st hv hs
    have hpair : load_vacancy_by_emp_id envs envl fuel e st
        = ((load_vacancy_by_emp_id envs envl fuel e st).1, none) := by
      rw [← h2]
    rw [load_vacancies_by_emp_ids, hpair, List.foldl_cons]
    exact ih _ (fun i hi => h i (List.mem_cons_of_mem _ hi))

/-- A fatal error (invalid id, not found, lookup failure) on one
employer aborts the whole batch at that employer. -/
theorem batch_abort (envs : PyVal → Nat) (envl : PyVal → Nat → ListResp)
    (fuel : Nat) (e : PyVal) (rest : List PyVal) (st st' : St) (err : PyError)
    (h : load_vacancy_by_emp_id envs envl fuel e st = (st', some err)) :
    load_vacancies_by_emp_ids envs envl fuel (e :: rest) st = (st', some err) := by
  rw [load_vacancies_by_emp_ids, h]

/-- Claim C1, counterexample: With the invalid id 0 first in the batch,
`load_vacancies_by_emp_ids` raises `ValueError('Invalid employer ID')`
immediately: no list request is ever issued (`requests = []`), although
the fetch for the subsequent id 1 alone would have accumulated an item —
so a validation failure on one employer does prevent the fetches for
the subsequent ids, contrary to the claim. -/
theorem batch_abort_counterexample :
    load_vacancies_by_emp_ids envS200 envL1 2 [.vint 0, .vint 1] st0
      = (st0, some (.valueError "Invalid employer ID"))
    ∧ (load_vacancies_by_emp_ids envS200 envL1 2 [.vint 0, .vint 1] st0).1.requests = []
    ∧ (load_vacancy_by_emp_id envS200 envL1 2 (.vint 1) st0).1.data = [JVal.num 7] := by
  decide

/-- Claim C1, amended: `load_vacancies_by_emp_ids` invokes the
single-employer fetch sequentially for each id in the given order, and
only transport failures are isolated to their own loop: when every id
validates and exists, the batch folds over all ids in order and raises
nothing regardless of the list transport's failures (which the
per-employer fetch swallows); but an InvalidInput, NotFound or
LookupFailed error on one employer propagates and aborts the batch,
so the subsequent ids are not fetched. -/
theorem batch_sequential_isolation :
    ∀ (envs : PyVal → Nat) (envl : PyVal → Nat → ListResp) (fuel : Nat)
      (st : St) (ids : List PyVal),
      ((∀ i ∈ ids, valid_id i = .ok i ∧ envs i = 200) →
        load_vacancies_by_emp_ids envs envl fuel ids st
          = (ids.foldl (fun s i => (load_vacancy_by_emp_id envs envl fuel i s).1) st,
             none))
      ∧ (∀ (e : PyVal) (rest : List PyVal) (st' : St) (err : PyError),
          load_vacancy_by_emp_id envs envl fuel e st = (st', some err) →
          load_vacancies_by_emp_ids envs envl fuel (e :: rest) st = (st', some err))
      ∧ (∀ (e : PyVal), valid_id e = .ok e → envs e = 200 →
          (load_vacancy_by_emp_id envs envl fuel e st).2 = none) :=
  fun envs envl fuel st ids =>
    ⟨fun h => batch_all_ok envs envl fuel ids st h,
     fun e rest st' err h => batch_abort envs envl fuel e rest st st' err h,
     fun e hv hs => load_vacancy_no_fatal envs envl fuel e st hv hs⟩

/-- Witness for the amended C1: with a transport that fails on every
list request, a batch of two valid ids still processes both in order
and raises nothing; with the invalid id 0, the batch aborts at once. -/
theorem batch_sequential_isolation_witness :
    load_vacancies_by_emp_ids envS200 envLfail 2 [.vint 1, .vint 2] st0
      = ([PyVal.vint 1, PyVal.vint 2].foldl
          (fun s i => (load_vacancy_by_emp_id envS200 envLfail 2 i s).1) st0, none)
    ∧ load_vacancies_by_emp_ids envS200 envL1 2 [.vint 0] st0
        = (st0, some (.valueError "Invalid employer ID"))
    ∧ (load_vacancy_by_emp_id envS200 envLfail 2 (.vint 1) st0).2 = none :=
  ⟨(batch_sequential_isolation envS200 envLfail 2 st0 [.vint 1, .vint 2]).1 (by decide),
   (batch_sequential_isolation envS200 envL1 2 st0 [.vint 0]).2.1 (.vint 0) []
     st0 (.valueError "Invalid employer ID") (by decide),
   (batch_sequential_isolation envS200 envLfail 2 st0 [.vint 1]).2.2 (.vint 1)
     (by decide) (by decide)⟩

end HH
